import Mathlib

/-!
Shallow embedding of the filter-composition core of the `rolldown/plugins`
babel plugin (`packages/babel/src/options.ts`, `rolldownPreset.ts`,
`utils.ts`, `index.ts`).

Pattern matching (picomatch for glob strings, `RegExp.prototype.test` for
regular expressions) is abstracted by an oracle `m : Pattern → String → Bool`:
every definition that compiles patterns into matchers takes the oracle as a
parameter, and theorems quantify over it.  Babel preset payloads, the resolved
vite config and the environment descriptor are opaque to the core, so they are
type parameters.
-/

namespace RB

/-- `T | T[]`, the raw shape accepted wherever the source calls `arrayify`. -/
inductive MaybeArray (T : Type) where
  | one : T → MaybeArray T
  | many : List T → MaybeArray T
deriving DecidableEq, Repr

/-- `utils.ts` `arrayify`: `Array.isArray(value) ? value : [value]`. -/
def arrayify {T : Type} : MaybeArray T → List T
  | .one v => [v]
  | .many l => l

/-- A `StringOrRegExp` pattern: a glob string, or a regular expression given
by its literal source text and flags. -/
inductive Pattern where
  | str : String → Pattern
  | regex : String → String → Pattern
deriving DecidableEq, Repr

/-- `options.ts` `patternKey`:
`typeof pattern === 'string' ? `s:${pattern}` : `r:${pattern.source}:${pattern.flags}``. -/
def patternKey : Pattern → String
  | .str s => "s:" ++ s
  | .regex source flags => "r:" ++ source ++ ":" ++ flags

/-- One entry of babel's `ConfigApplicableTest`: a string/RegExp pattern, or a
matcher function (opaque: only its presence matters to the code under test). -/
inductive ConfigItem where
  | pat : Pattern → ConfigItem
  | func : ConfigItem
deriving DecidableEq, Repr

/-- Babel's `ConfigApplicableTest`: a single entry or an array of entries. -/
def ConfigApplicableTest : Type := MaybeArray ConfigItem

/-- Rolldown's `GeneralHookFilter`: a single pattern, an array of patterns, or
an `{ include?, exclude? }` object whose fields may each be a single pattern
or an array. -/
inductive GeneralHookFilter where
  | single : Pattern → GeneralHookFilter
  | list : List Pattern → GeneralHookFilter
  | obj : Option (MaybeArray Pattern) → Option (MaybeArray Pattern) → GeneralHookFilter
deriving DecidableEq, Repr

/-- Rolldown's `ModuleTypeFilter`: `string[] | { include?: string[] }`. -/
inductive ModuleTypeFilter where
  | list : List String → ModuleTypeFilter
  | obj : Option (List String) → ModuleTypeFilter
deriving DecidableEq, Repr

/-- `options.ts` `NormalizedFilter` (generalized over the item type, as
`unionFilters` uses it): `{ include?: T[], exclude?: T[] }`. -/
structure NormalizedArrays (T : Type) where
  include? : Option (List T)
  exclude? : Option (List T)
deriving DecidableEq, Repr

/-- `options.ts` `normalizeGeneralHookFilter` on a defined filter (the
`filter == null` early return corresponds to the `undefined` case that
`unionFilters` handles before calling `normalize`). -/
def normalizeGeneralHookFilter : GeneralHookFilter → NormalizedArrays Pattern
  | .single p => ⟨some [p], none⟩
  | .list l => ⟨some l, none⟩
  | .obj i e => ⟨i.map arrayify, e.map arrayify⟩

/-- `options.ts` `normalizeModuleTypeFilter`:
`Array.isArray(filter) ? filter : filter.include ?? []`. -/
def normalizeModuleTypeFilter : ModuleTypeFilter → List String
  | .list l => l
  | .obj i => i.getD []

/-- The inline normalizer `calculateTransformFilter` passes to `unionFilters`
for the `moduleType` dimension:
`{ include: types.length > 0 ? types : undefined }`. -/
def moduleTypeNormalize (f : ModuleTypeFilter) : NormalizedArrays String :=
  let types := normalizeModuleTypeFilter f
  ⟨if types.length > 0 then some types else none, none⟩

/-- The early-returning loop body of `extractStringOrRegExp`: collect pattern
entries, abort with `none` on the first function entry. -/
def extractItems : List ConfigItem → Option (List Pattern)
  | [] => some []
  | .func :: _ => none
  | .pat p :: rest => (extractItems rest).map (p :: ·)

/-- `options.ts` `extractStringOrRegExp`: `undefined` input stays `undefined`;
any function entry makes the whole result `undefined`; an empty result list is
also returned as `undefined`. -/
def extractStringOrRegExp (test : Option ConfigApplicableTest) : Option (List Pattern) :=
  match test with
  | none => none
  | some t =>
    match extractItems (arrayify t) with
    | none => none
    | some result => if result.length > 0 then some result else none

/-- One step of building a JS `Map` from a keyed list: a later entry with an
already-present key replaces the value in place (insertion order kept),
otherwise it is appended. -/
def insertEntry {T : Type} (keyFn : T → String) (acc : List (String × T)) (p : T) :
    List (String × T) :=
  if acc.any (fun e => e.1 = keyFn p) then
    acc.map (fun e => if e.1 = keyFn p then (keyFn p, p) else e)
  else acc ++ [(keyFn p, p)]

/-- `options.ts` `intersectArrays`: the intersection of arrays by key.  Empty
input gives `[]`; if any array is `undefined` the intersection is empty;
otherwise a `Map` is seeded from the first array and every key missing from a
later array is deleted. -/
def intersectArrays {T : Type} (arrays : List (Option (List T))) (keyFn : T → String) :
    List T :=
  match arrays with
  | [] => []
  | first? :: rest =>
    if (first? :: rest).any Option.isNone then []
    else
      let firstEntries := (first?.getD []).foldl (insertEntry keyFn) []
      let surviving := rest.foldl
        (fun acc arr? => acc.filter (fun e => (arr?.getD []).any (fun p => keyFn p = e.1)))
        firstEntries
      surviving.map (fun e => e.2)

/-- `options.ts` `concatArrays`. -/
def concatArrays {T : Type} (a b : Option (List T)) : Option (List T) :=
  match a, b with
  | none, _ => b
  | _, none => a
  | some x, some y => some (x ++ y)

/-- `options.ts` `DimensionUnion`. -/
structure DimensionUnion (T : Type) where
  includes : Option (List T)
  excludes : List T
deriving DecidableEq, Repr

/-- The loop of `options.ts` `unionFilters`, with the `matchAll` flag passed
through: returns the final flag, the collected includes (pushed only while the
flag is still false) and the per-filter exclude arrays. -/
def unionFiltersGo {F T : Type} (normalize : F → NormalizedArrays T) (matchAll : Bool) :
    List (Option F) → Bool × List T × List (Option (List T))
  | [] => (matchAll, [], [])
  | none :: rest =>
    let r := unionFiltersGo normalize true rest
    (r.1, r.2.1, none :: r.2.2)
  | some f :: rest =>
    let n := normalize f
    match matchAll, n.include? with
    | false, some inc =>
      let r := unionFiltersGo normalize false rest
      (r.1, inc ++ r.2.1, n.exclude? :: r.2.2)
    | false, none =>
      let r := unionFiltersGo normalize true rest
      (r.1, r.2.1, n.exclude? :: r.2.2)
    | true, _ =>
      let r := unionFiltersGo normalize true rest
      (r.1, r.2.1, n.exclude? :: r.2.2)

/-- `options.ts` `unionFilters`: includes are unioned (a filterless entry, or
one whose normalized form has no include list, widens to match-all), excludes
are intersected by key. -/
def unionFilters {F T : Type} (rawFilters : List (Option F))
    (normalize : F → NormalizedArrays T) (keyFn : T → String) : DimensionUnion T :=
  let r := unionFiltersGo normalize false rawFilters
  { includes := if r.1 then none else if r.2.1.length > 0 then some r.2.1 else none
    excludes := intersectArrays r.2.2 keyFn }

/-- `rolldownPreset.ts` `RolldownBabelPreset['rolldown']['filter']`: up to
three dimension filters, keyed `id`, `moduleType`, `code`. -/
structure FilterSpec where
  id : Option GeneralHookFilter
  moduleType : Option ModuleTypeFilter
  code : Option GeneralHookFilter
deriving DecidableEq, Repr

/-- The `rolldown` capability bundle of a `RolldownBabelPreset`.  `Cfg` is the
opaque resolved build config, `Env` the opaque environment descriptor. -/
structure RolldownData (Cfg Env : Type) where
  filter : Option FilterSpec
  applyToEnvironmentHook : Option (Env → Bool)
  configResolvedHook : Option (Cfg → Bool)

/-- `RolldownBabelPresetItem`: a plain babel preset (opaque payload `α`), or a
`RolldownBabelPreset` carrying the payload `preset` plus rolldown data. -/
inductive RolldownBabelPresetItem (α Cfg Env : Type) where
  | plain : α → RolldownBabelPresetItem α Cfg Env
  | rolldown : α → RolldownData Cfg Env → RolldownBabelPresetItem α Cfg Env

/-- `rolldownPreset.ts` `PresetConversionContext`. -/
structure PresetConversionContext where
  id : String
  moduleType : String
  code : String
deriving DecidableEq, Repr

/-- The pattern-matching oracle: what `rolldownPreset.ts` `compilePattern`
builds (picomatch for a glob string, `regex.test` for a RegExp), abstracted. -/
def compilePattern (m : Pattern → String → Bool) (pattern : Pattern) : String → Bool :=
  m pattern

/-- `rolldownPreset.ts` `compilePatterns`: true when any element matches. -/
def compilePatterns (m : Pattern → String → Bool) (patterns : List Pattern) :
    String → Bool :=
  let matchers := patterns.map (compilePattern m)
  fun value => matchers.any (fun mf => mf value)

/-- Applying an optional matcher the way the source guards each call:
`!matcher || matcher(value)` — an absent matcher passes everything. -/
def applyMatcher (matcher : Option (String → Bool)) (value : String) : Bool :=
  match matcher with
  | none => true
  | some g => g value

/-- `rolldownPreset.ts` `compileGeneralHookFilter`: `undefined` when the filter
matches everything, otherwise the include/exclude matcher combination with
exclude checked first. -/
def compileGeneralHookFilter (m : Pattern → String → Bool) :
    Option GeneralHookFilter → Option (String → Bool)
  | none => none
  | some filter =>
    let inc : Option (List Pattern) :=
      match filter with
      | .single p => some [p]
      | .list l => some l
      | .obj i _ => i.map arrayify
    let exc : Option (List Pattern) :=
      match filter with
      | .single _ => none
      | .list _ => none
      | .obj _ e => e.map arrayify
    let includeMatcher := inc.map (compilePatterns m)
    let excludeMatcher := exc.map (compilePatterns m)
    match includeMatcher, excludeMatcher with
    | some im, some em => some (fun value => !em value && im value)
    | none, some em => some (fun value => !em value)
    | im, none => im

/-- `rolldownPreset.ts` `compileModuleTypeFilter`: an empty type list (or
absent `include`) compiles to `undefined` (match-all); otherwise membership in
the type set. -/
def compileModuleTypeFilter : Option ModuleTypeFilter → Option (String → Bool)
  | none => none
  | some filter =>
    let types := match filter with | .list l => l | .obj i => i.getD []
    if types.length = 0 then none
    else some (fun value => types.contains value)

/-- `rolldownPreset.ts` `compilePresetFilter`: conjunction of the three
dimension matchers; `undefined` when all three are absent. -/
def compilePresetFilter (m : Pattern → String → Bool) :
    Option FilterSpec → Option (PresetConversionContext → Bool)
  | none => none
  | some filter =>
    let matchId := compileGeneralHookFilter m filter.id
    let matchModuleType := compileModuleTypeFilter filter.moduleType
    let matchCode := compileGeneralHookFilter m filter.code
    if matchId.isNone && matchModuleType.isNone && matchCode.isNone then none
    else
      some (fun ctx =>
        applyMatcher matchId ctx.id &&
        applyMatcher matchModuleType ctx.moduleType &&
        applyMatcher matchCode ctx.code)

/-- `rolldownPreset.ts` `convertToBabelPresetItem`: a plain preset is forwarded
unchanged; a rolldown preset is dropped when its compiled filter rejects the
context, else its babel payload is forwarded.  `some` models the `{ value }`
wrapper, `none` models `undefined`. -/
def convertToBabelPresetItem {α Cfg Env : Type} (ctx : PresetConversionContext)
    (preset : RolldownBabelPresetItem α Cfg Env)
    (compiledFilter : Option (PresetConversionContext → Bool)) : Option α :=
  match preset with
  | .plain v => some v
  | .rolldown payload _ =>
    match compiledFilter with
    | some g => if g ctx then some payload else none
    | none => some payload

/-- `utils.ts` `filterMap` loop, carrying the index. -/
def filterMapGo {T U : Type} (predicate : T → Nat → Option U) : Nat → List T → List U
  | _, [] => []
  | i, x :: xs =>
    match predicate x i with
    | some u => u :: filterMapGo predicate (i + 1) xs
    | none => filterMapGo predicate (i + 1) xs

/-- `utils.ts` `filterMap`: keep `result.value` for the entries where the
predicate returns a `{ value }` record. -/
def filterMap {T U : Type} (array : List T) (predicate : T → Nat → Option U) : List U :=
  filterMapGo predicate 0 array

/-- `options.ts` `compilePresetFilters` applied to one preset. -/
def presetCompiled {α Cfg Env : Type} (m : Pattern → String → Bool)
    (preset : RolldownBabelPresetItem α Cfg Env) :
    Option (PresetConversionContext → Bool) :=
  match preset with
  | .plain _ => none
  | .rolldown _ rd => compilePresetFilter m rd.filter

/-- `options.ts` `compilePresetFilters`. -/
def compilePresetFilters {α Cfg Env : Type} (m : Pattern → String → Bool)
    (presets : List (RolldownBabelPresetItem α Cfg Env)) :
    List (Option (PresetConversionContext → Bool)) :=
  presets.map (presetCompiled m)

/-- The per-file preset selection performed inside the converter returned by
`options.ts` `createBabelOptionsConverter`:
`filterMap(presets, (preset, i) => convertToBabelPresetItem(ctx, preset, presetFilters![i]))`. -/
def selectPresets {α Cfg Env : Type} (m : Pattern → String → Bool)
    (ctx : PresetConversionContext)
    (presets : List (RolldownBabelPresetItem α Cfg Env)) : List α :=
  let presetFilters := compilePresetFilters m presets
  filterMap presets (fun preset i => convertToBabelPresetItem ctx preset (presetFilters.getD i none))

/-- The fields of `options.ts` `InnerTransformOptions` the core reads for an
override block: its preset list. -/
structure InnerOptions (α Cfg Env : Type) where
  presets : Option (List (RolldownBabelPresetItem α Cfg Env))

/-- The fields of `options.ts` `PluginOptions` the filter core reads.
`plugins` entries are opaque (only the list length is inspected). -/
structure PluginOptions (α Cfg Env Plug : Type) where
  include? : Option ConfigApplicableTest
  exclude? : Option ConfigApplicableTest
  plugins : Option (List Plug)
  presets : Option (List (RolldownBabelPresetItem α Cfg Env))
  overrides : Option (List (InnerOptions α Cfg Env))

/-- `options.ts` `ResolvedPluginOptions`: `include` and `exclude` resolved to
defined values. -/
structure ResolvedPluginOptions (α Cfg Env Plug : Type) where
  includeOpt : ConfigApplicableTest
  excludeOpt : ConfigApplicableTest
  plugins : Option (List Plug)
  presets : Option (List (RolldownBabelPresetItem α Cfg Env))
  overrides : Option (List (InnerOptions α Cfg Env))

/-- `options.ts` `DEFAULT_INCLUDE`. -/
def DEFAULT_INCLUDE : ConfigApplicableTest :=
  MaybeArray.many [ConfigItem.pat (Pattern.regex "\\.(?:[jt]sx?|[cm][jt]s)(?:$|\\?)" "")]

/-- `options.ts` `DEFAULT_EXCLUDE`. -/
def DEFAULT_EXCLUDE : ConfigApplicableTest :=
  MaybeArray.many [ConfigItem.pat (Pattern.regex "[/\\\\]node_modules[/\\\\]" "")]

/-- `options.ts` `resolveOptions`. -/
def resolveOptions {α Cfg Env Plug : Type} (options : PluginOptions α Cfg Env Plug) :
    ResolvedPluginOptions α Cfg Env Plug :=
  { includeOpt := options.include?.getD DEFAULT_INCLUDE
    excludeOpt := options.exclude?.getD DEFAULT_EXCLUDE
    plugins := options.plugins
    presets := options.presets
    overrides := options.overrides }

/-- The keep-condition of the filter inside
`options.ts` `filterPresetArrayWithEnvironment`: plain presets and presets
without an `applyToEnvironmentHook` are always kept; otherwise the hook
decides. -/
def envKeep {α Cfg Env : Type} (environment : Env)
    (preset : RolldownBabelPresetItem α Cfg Env) : Bool :=
  match preset with
  | .plain _ => true
  | .rolldown _ rd =>
    match rd.applyToEnvironmentHook with
    | none => true
    | some hook => hook environment

/-- `options.ts` `filterPresetArrayWithEnvironment`. -/
def filterPresetArrayWithEnvironment {α Cfg Env : Type}
    (presets : List (RolldownBabelPresetItem α Cfg Env)) (environment : Env) :
    List (RolldownBabelPresetItem α Cfg Env) :=
  presets.filter (envKeep environment)

/-- `options.ts` `filterPresetsWithEnvironment`: reduce the top-level preset
list and each override block's preset list with the environment gate. -/
def filterPresetsWithEnvironment {α Cfg Env Plug : Type}
    (options : PluginOptions α Cfg Env Plug) (environment : Env) :
    PluginOptions α Cfg Env Plug :=
  { options with
    presets := options.presets.map (filterPresetArrayWithEnvironment · environment)
    overrides := options.overrides.map (List.map (fun override =>
      match override.presets with
      | some ps => { override with
          presets := some (filterPresetArrayWithEnvironment ps environment) }
      | none => override)) }

/-- The keep-condition of the filter inside `options.ts` `filterPresetArray`:
plain presets and presets without a `configResolvedHook` are always kept;
otherwise the hook decides. -/
def phaseKeep {α Cfg Env : Type} (config : Cfg)
    (preset : RolldownBabelPresetItem α Cfg Env) : Bool :=
  match preset with
  | .plain _ => true
  | .rolldown _ rd =>
    match rd.configResolvedHook with
    | none => true
    | some hook => hook config

/-- `options.ts` `filterPresetArray`. -/
def filterPresetArray {α Cfg Env : Type}
    (presets : List (RolldownBabelPresetItem α Cfg Env)) (config : Cfg) :
    List (RolldownBabelPresetItem α Cfg Env) :=
  presets.filter (phaseKeep config)

/-- `options.ts` `filterPresetsWithConfigResolved`. -/
def filterPresetsWithConfigResolved {α Cfg Env Plug : Type}
    (options : PluginOptions α Cfg Env Plug) (config : Cfg) :
    PluginOptions α Cfg Env Plug :=
  { options with
    presets := options.presets.map (filterPresetArray · config)
    overrides := options.overrides.map (List.map (fun override =>
      match override.presets with
      | some ps => { override with presets := some (filterPresetArray ps config) }
      | none => override)) }

/-- The `id` entry of the computed `HookFilter`:
`{ include?: Pattern[], exclude?: Pattern[] }`. -/
structure IdFilterOut where
  include? : Option (List Pattern)
  exclude? : Option (List Pattern)
deriving DecidableEq, Repr

/-- The `code` entry of the computed `HookFilter`: either an
`{ include, exclude }` object (both present) or a bare pattern array. -/
inductive CodeFilterOut where
  | withExclude : List Pattern → List Pattern → CodeFilterOut
  | plain : List Pattern → CodeFilterOut
deriving DecidableEq, Repr

/-- The `HookFilter` value `calculateTransformFilter` produces: per dimension
either absent (match-all) or a constraint. -/
structure HookFilterOut where
  id : Option IdFilterOut
  moduleType : Option (List String)
  code : Option CodeFilterOut
deriving DecidableEq, Repr

/-- `options.ts` `isRolldownBabelPreset` combined with the filter-presence
check of the loop in `calculateTransformFilter`:
`isRolldownBabelPreset(preset) && preset.rolldown.filter`. -/
def isRolldownPresetWithFilter {α Cfg Env : Type}
    (preset : RolldownBabelPresetItem α Cfg Env) : Bool :=
  match preset with
  | .plain _ => false
  | .rolldown _ rd => rd.filter.isSome

/-- `options.plugins && options.plugins.length > 0`. -/
def pluginsNonempty {α Cfg Env Plug : Type}
    (options : ResolvedPluginOptions α Cfg Env Plug) : Bool :=
  match options.plugins with
  | none => false
  | some l => decide (l.length > 0)

/-- `typedPresets.map((p) => p.rolldown.filter!)` — the filter specs of a
preset list all of whose members pass `isRolldownPresetWithFilter`. -/
def presetFilterSpecs {α Cfg Env : Type}
    (presets : List (RolldownBabelPresetItem α Cfg Env)) : List FilterSpec :=
  presets.filterMap (fun preset =>
    match preset with
    | .plain _ => none
    | .rolldown _ rd => rd.filter)

/-- The `baseFilter` of `calculateTransformFilter`: the user id
include/exclude only, with `moduleType` and `code` absent. -/
def baseTransformFilter {α Cfg Env Plug : Type}
    (options : ResolvedPluginOptions α Cfg Env Plug) : HookFilterOut :=
  { id := some ⟨extractStringOrRegExp (some options.includeOpt),
               extractStringOrRegExp (some options.excludeOpt)⟩
    moduleType := none
    code := none }

/-- The `idUnion` local of `calculateTransformFilter`. -/
def idUnionOf (filters : List FilterSpec) : DimensionUnion Pattern :=
  unionFilters (filters.map (·.id)) normalizeGeneralHookFilter patternKey

/-- The `moduleTypeUnion` local of `calculateTransformFilter`. -/
def moduleTypeUnionOf (filters : List FilterSpec) : DimensionUnion String :=
  unionFilters (filters.map (·.moduleType)) moduleTypeNormalize (fun s => s)

/-- The `codeUnion` local of `calculateTransformFilter`. -/
def codeUnionOf (filters : List FilterSpec) : DimensionUnion Pattern :=
  unionFilters (filters.map (·.code)) normalizeGeneralHookFilter patternKey

/-- The `finalFilterIdInclude` local of `calculateTransformFilter`:
`userInclude ?? idUnion.includes`. -/
def finalIdInclude (userInclude : Option (List Pattern)) (filters : List FilterSpec) :
    Option (List Pattern) :=
  match userInclude with
  | some l => some l
  | none => (idUnionOf filters).includes

/-- The `finalFilterIdExclude` local of `calculateTransformFilter`:
`concatArrays(userExclude, idUnion.excludes.length > 0 ? idUnion.excludes : undefined)`. -/
def finalIdExclude (userExclude : Option (List Pattern)) (filters : List FilterSpec) :
    Option (List Pattern) :=
  concatArrays userExclude
    (if (idUnionOf filters).excludes.length > 0 then some (idUnionOf filters).excludes
     else none)

/-- The tail of `calculateTransformFilter` once every preset is a rolldown
preset with a filter: union the three dimensions, give user includes priority
on `id`, concatenate user excludes with the intersected preset excludes, and
emit `moduleType`/`code` only when their unions are constrained. -/
def presetBranchFilter (userInclude userExclude : Option (List Pattern))
    (filters : List FilterSpec) : HookFilterOut :=
  let idOut : Option IdFilterOut :=
    if (finalIdInclude userInclude filters).isSome ||
        (finalIdExclude userExclude filters).isSome then
      some ⟨finalIdInclude userInclude filters, finalIdExclude userExclude filters⟩
    else none
  let codeOut : Option CodeFilterOut :=
    match (codeUnionOf filters).includes with
    | none => none
    | some incs =>
      if (codeUnionOf filters).excludes.length > 0 then
        some (CodeFilterOut.withExclude incs (codeUnionOf filters).excludes)
      else some (CodeFilterOut.plain incs)
  { id := idOut, moduleType := (moduleTypeUnionOf filters).includes, code := codeOut }

/-- `options.ts` `calculateTransformFilter`. -/
def calculateTransformFilter {α Cfg Env Plug : Type}
    (options : ResolvedPluginOptions α Cfg Env Plug) : HookFilterOut :=
  let userInclude := extractStringOrRegExp (some options.includeOpt)
  let userExclude := extractStringOrRegExp (some options.excludeOpt)
  if pluginsNonempty options then baseTransformFilter options
  else
    match options.presets with
    | none => baseTransformFilter options
    | some presets =>
      if presets.length = 0 then baseTransformFilter options
      else if presets.any (fun p => !isRolldownPresetWithFilter p) then
        baseTransformFilter options
      else presetBranchFilter userInclude userExclude (presetFilterSpecs presets)

/-- Modelled from the spec: how the host (rolldown) applies one pre-filter
dimension with both bounds optional — "If both present →
`value => !excludeMatcher(value) && includeMatcher(value)`", only include →
include, only exclude → negated exclude, neither → match-all.  The host's
filter application is not part of this repository's sources. -/
def idFilterAccepts (m : Pattern → String → Bool) (f : IdFilterOut) (value : String) : Bool :=
  match f.include?, f.exclude? with
  | some inc, some exc => !compilePatterns m exc value && compilePatterns m inc value
  | some inc, none => compilePatterns m inc value
  | none, some exc => !compilePatterns m exc value
  | none, none => true

/-- Modelled from the spec: the host's application of the `code` entry of the
pre-filter (a bare array is an include list; an object carries both bounds,
exclude first). -/
def codeFilterAccepts (m : Pattern → String → Bool) (f : CodeFilterOut) (value : String) : Bool :=
  match f with
  | .plain inc => compilePatterns m inc value
  | .withExclude inc exc => !compilePatterns m exc value && compilePatterns m inc value

/-- Modelled from the spec: the host's application of the whole compiled
pre-filter to a file context — each present dimension must accept, an absent
dimension matches everything. -/
def hookFilterAccepts (m : Pattern → String → Bool) (hf : HookFilterOut)
    (ctx : PresetConversionContext) : Bool :=
  (match hf.id with
   | none => true
   | some f => idFilterAccepts m f ctx.id) &&
  (match hf.moduleType with
   | none => true
   | some types => types.contains ctx.moduleType) &&
  (match hf.code with
   | none => true
   | some f => codeFilterAccepts m f ctx.code)

/-- A concrete oracle for counterexamples: a pattern matches exactly the
literal text of its glob string or regex source.  (Faithful to
picomatch/RegExp on patterns that use no metacharacters.) -/
def litMatch : Pattern → String → Bool
  | .str s, value => s = value
  | .regex source _, value => source = value

/-- A concrete oracle that matches nothing, used to instantiate witnesses. -/
def noMatch : Pattern → String → Bool := fun _ _ => false

/-! ### Basic lemmas about the embedded operations -/

theorem compilePatterns_true_iff (m : Pattern → String → Bool) (patterns : List Pattern)
    (value : String) :
    compilePatterns m patterns value = true ↔ ∃ p ∈ patterns, m p value = true := by
  simp [compilePatterns, compilePattern, List.any_map, List.any_eq_true, Function.comp]

theorem compilePatterns_nil (m : Pattern → String → Bool) (value : String) :
    compilePatterns m [] value = false := rfl

theorem compilePatterns_append (m : Pattern → String → Bool) (a b : List Pattern)
    (value : String) :
    compilePatterns m (a ++ b) value =
      (compilePatterns m a value || compilePatterns m b value) := by
  simp [compilePatterns, compilePattern, List.any_append]

/-- The exclude array a raw filter contributes to `unionFilters`:
`undefined` for a missing filter, otherwise its normalized exclude list. -/
def excsOfRaw {F T : Type} (normalize : F → NormalizedArrays T) :
    Option F → Option (List T)
  | none => none
  | some f => (normalize f).exclude?

theorem unionFiltersGo_excludes {F T : Type} (normalize : F → NormalizedArrays T) :
    ∀ (b : Bool) (raws : List (Option F)),
      (unionFiltersGo normalize b raws).2.2 = raws.map (excsOfRaw normalize)
  | _, [] => rfl
  | b, none :: rest => by
    simp [unionFiltersGo, excsOfRaw, unionFiltersGo_excludes normalize true rest]
  | b, some f :: rest => by
    cases b <;> cases h : (normalize f).include? <;>
      simp [unionFiltersGo, excsOfRaw, h, unionFiltersGo_excludes normalize true rest,
        unionFiltersGo_excludes normalize false rest]

theorem unionFiltersGo_stays_matchAll {F T : Type} (normalize : F → NormalizedArrays T) :
    ∀ raws : List (Option F), (unionFiltersGo normalize true raws).1 = true
  | [] => rfl
  | none :: rest => by
    simp [unionFiltersGo, unionFiltersGo_stays_matchAll normalize rest]
  | some f :: rest => by
    simp [unionFiltersGo, unionFiltersGo_stays_matchAll normalize rest]

theorem unionFiltersGo_matchAll_of_unconstrained {F T : Type}
    (normalize : F → NormalizedArrays T) :
    ∀ (b : Bool) (raws : List (Option F)),
      (∃ raw ∈ raws, raw = none ∨ ∃ f, raw = some f ∧ (normalize f).include? = none) →
      (unionFiltersGo normalize b raws).1 = true
  | b, [], h => by simp at h
  | b, none :: rest, _ => by
    simp [unionFiltersGo, unionFiltersGo_stays_matchAll normalize rest]
  | b, some f :: rest, h => by
    rcases h with ⟨raw, hmem, hcase⟩
    rcases List.mem_cons.mp hmem with rfl | hmem'
    · rcases hcase with h' | ⟨f', hf', hinc⟩
      · exact absurd h' (by simp)
      · cases hf'
        cases b <;>
          simp [unionFiltersGo, hinc, unionFiltersGo_stays_matchAll normalize rest]
    · have ih := unionFiltersGo_matchAll_of_unconstrained normalize
        true rest ⟨raw, hmem', hcase⟩
      have ihf := unionFiltersGo_matchAll_of_unconstrained normalize
        false rest ⟨raw, hmem', hcase⟩
      cases b <;> cases hinc : (normalize f).include? <;>
        simp [unionFiltersGo, hinc, ih, ihf]

theorem unionFiltersGo_includes_sub {F T : Type} (normalize : F → NormalizedArrays T) :
    ∀ raws : List (Option F), (unionFiltersGo normalize false raws).1 = false →
      ∀ raw ∈ raws, ∃ f l, raw = some f ∧ (normalize f).include? = some l ∧
        ∀ x ∈ l, x ∈ (unionFiltersGo normalize false raws).2.1
  | [], _, raw, hmem => by simp at hmem
  | none :: rest, hfalse, raw, hmem => by
    exact absurd hfalse (by
      simp [unionFiltersGo, unionFiltersGo_stays_matchAll normalize rest])
  | some f :: rest, hfalse, raw, hmem => by
    cases hinc : (normalize f).include? with
    | none =>
      exact absurd hfalse (by
        simp [unionFiltersGo, hinc, unionFiltersGo_stays_matchAll normalize rest])
    | some inc =>
      have hrest : (unionFiltersGo normalize false rest).1 = false := by
        simpa [unionFiltersGo, hinc] using hfalse
      rcases List.mem_cons.mp hmem with rfl | hmem'
      · exact ⟨f, inc, rfl, hinc, fun x hx => by
          simp [unionFiltersGo, hinc, List.mem_append, hx]⟩
      · rcases unionFiltersGo_includes_sub normalize rest hrest raw hmem' with
          ⟨f', l, hraw, hinc', hsub⟩
        exact ⟨f', l, hraw, hinc', fun x hx => by
          simp [unionFiltersGo, hinc, List.mem_append, Or.inr (hsub x hx)]⟩

theorem insertEntry_mem {T : Type} (keyFn : T → String) (acc : List (String × T)) (p : T)
    (e : String × T) (h : e ∈ insertEntry keyFn acc p) :
    e ∈ acc ∨ e = (keyFn p, p) := by
  unfold insertEntry at h
  by_cases hany : acc.any (fun en => en.1 = keyFn p)
  · simp only [hany, if_pos] at h
    rcases List.mem_map.mp h with ⟨a, ha, rfl⟩
    by_cases hk : a.1 = keyFn p
    · simp [hk]
    · simp [hk]
      exact Or.inl ha
  · simp only [hany, if_neg] at h
    rcases List.mem_append.mp h with h' | h'
    · exact Or.inl h'
    · simp at h'
      exact Or.inr h'

theorem foldl_insertEntry_mem {T : Type} (keyFn : T → String) :
    ∀ (l : List T) (acc : List (String × T)) (e : String × T),
      e ∈ l.foldl (insertEntry keyFn) acc → e ∈ acc ∨ ∃ p ∈ l, e = (keyFn p, p)
  | [], _, _, h => Or.inl h
  | x :: xs, acc, e, h => by
    rcases foldl_insertEntry_mem keyFn xs (insertEntry keyFn acc x) e h with h' | ⟨p, hp, he⟩
    · rcases insertEntry_mem keyFn acc x e h' with h'' | h''
      · exact Or.inl h''
      · exact Or.inr ⟨x, List.mem_cons_self x xs, h''⟩
    · exact Or.inr ⟨p, List.mem_cons_of_mem x hp, he⟩

theorem insertEntry_key_iff {T : Type} (keyFn : T → String) (acc : List (String × T)) (p : T)
    (k : String) :
    (∃ e ∈ insertEntry keyFn acc p, e.1 = k) ↔ (∃ e ∈ acc, e.1 = k) ∨ keyFn p = k := by
  unfold insertEntry
  by_cases hany : acc.any (fun en => en.1 = keyFn p)
  · simp only [hany, if_pos]
    constructor
    · rintro ⟨e, he, hk⟩
      rcases List.mem_map.mp he with ⟨a, ha, rfl⟩
      by_cases hk' : a.1 = keyFn p
      · simp only [hk', if_pos] at hk
        exact Or.inl ⟨a, ha, by simpa [hk'] using hk⟩
      · simp only [hk', if_neg] at hk
        exact Or.inl ⟨a, ha, hk⟩
    · rintro (⟨e, he, hk⟩ | hk)
      · by_cases hk' : e.1 = keyFn p
        · exact ⟨(keyFn p, p), List.mem_map.mpr ⟨e, he, by simp [hk']⟩, hk' ▸ hk⟩
        · exact ⟨e, List.mem_map.mpr ⟨e, he, by simp [hk']⟩, hk⟩
      · rcases List.any_eq_true.mp hany with ⟨a, ha, ha'⟩
        have ha'' : a.1 = keyFn p := by simpa using ha'
        exact ⟨(keyFn p, p), List.mem_map.mpr ⟨a, ha, by simp [ha'']⟩, hk⟩
  · simp only [hany, if_neg]
    constructor
    · rintro ⟨e, he, hk⟩
      rcases List.mem_append.mp he with h' | h'
      · exact Or.inl ⟨e, h', hk⟩
      · simp at h'
        subst h'
        exact Or.inr hk
    · rintro (⟨e, he, hk⟩ | hk)
      · exact ⟨e, List.mem_append.mpr (Or.inl he), hk⟩
      · exact ⟨(keyFn p, p), List.mem_append.mpr (Or.inr (by simp)), hk⟩

theorem foldl_insertEntry_key_iff {T : Type} (keyFn : T → String) :
    ∀ (l : List T) (acc : List (String × T)) (k : String),
      (∃ e ∈ l.foldl (insertEntry keyFn) acc, e.1 = k) ↔
        (∃ e ∈ acc, e.1 = k) ∨ ∃ p ∈ l, keyFn p = k
  | [], acc, k => by simp
  | x :: xs, acc, k => by
    rw [List.foldl_cons, foldl_insertEntry_key_iff keyFn xs (insertEntry keyFn acc x) k,
      insertEntry_key_iff keyFn acc x k]
    constructor
    · rintro ((h | h) | ⟨p, hp, hk⟩)
      · exact Or.inl h
      · exact Or.inr ⟨x, List.mem_cons_self x xs, h⟩
      · exact Or.inr ⟨p, List.mem_cons_of_mem x hp, hk⟩
    · rintro (h | ⟨p, hp, hk⟩)
      · exact Or.inl (Or.inl h)
      · rcases List.mem_cons.mp hp with rfl | hp'
        · exact Or.inl (Or.inr hk)
        · exact Or.inr ⟨p, hp', hk⟩

theorem foldl_filter_mem {T : Type} (keyFn : T → String) :
    ∀ (rest : List (Option (List T))) (init : List (String × T)) (e : String × T),
      e ∈ rest.foldl
          (fun acc arr? =>
            acc.filter (fun en => (arr?.getD []).any (fun p => keyFn p = en.1)))
          init ↔
        e ∈ init ∧ ∀ arr? ∈ rest, ((arr?.getD []).any (fun p => keyFn p = e.1)) = true
  | [], init, e => by simp
  | a :: rest, init, e => by
    rw [List.foldl_cons, foldl_filter_mem keyFn rest _ e]
    constructor
    · rintro ⟨hmem, hall⟩
      rcases List.mem_filter.mp hmem with ⟨hinit, hcond⟩
      refine ⟨hinit, fun arr? harr => ?_⟩
      rcases List.mem_cons.mp harr with rfl | harr'
      · exact hcond
      · exact hall arr? harr'
    · rintro ⟨hinit, hall⟩
      exact ⟨List.mem_filter.mpr ⟨hinit, hall a (List.mem_cons_self a rest)⟩,
        fun arr? harr => hall arr? (List.mem_cons_of_mem a harr)⟩

/-- Forward direction of intersection membership: an element of
`intersectArrays` has a same-key companion in every contributing array (and
all arrays are defined). -/
theorem intersectArrays_mem {T : Type} (arrays : List (Option (List T))) (keyFn : T → String)
    (x : T) (hx : x ∈ intersectArrays arrays keyFn) :
    arrays ≠ [] ∧ ∀ a ∈ arrays, ∃ l, a = some l ∧ ∃ y ∈ l, keyFn y = keyFn x := by
  match arrays with
  | [] => simp [intersectArrays] at hx
  | first? :: rest =>
    refine ⟨by simp, ?_⟩
    unfold intersectArrays at hx
    by_cases hnone : (first? :: rest).any Option.isNone
    · simp [hnone] at hx
    · simp only [hnone, if_neg, Bool.not_eq_true] at hx
      rcases List.mem_map.mp hx with ⟨e, he, rfl⟩
      rw [foldl_filter_mem keyFn rest _ e] at he
      rcases he with ⟨hfirst, hall⟩
      rcases foldl_insertEntry_mem keyFn _ [] e hfirst with h | ⟨p, hp, rfl⟩
      · simp at h
      · intro a ha
        have hsome : ∃ l, a = some l := by
          match a with
          | some l => exact ⟨l, rfl⟩
          | none =>
            have : (first? :: rest).any Option.isNone = true :=
              List.any_eq_true.mpr ⟨none, ha, by simp⟩
            exact absurd this hnone
        rcases hsome with ⟨l, rfl⟩
        rcases List.mem_cons.mp ha with rfl | ha'
        · exact ⟨l, rfl, p, by simpa using hp, rfl⟩
        · have := hall (some l) ha'
          rcases List.any_eq_true.mp this with ⟨y, hy, hy'⟩
          exact ⟨l, rfl, y, by simpa using hy, by simpa using hy'⟩

/-- Key-level characterization of `intersectArrays`: a key occurs in the
result exactly when the input is non-empty, every array is defined, and every
array holds an element with that key. -/
theorem intersectArrays_key_iff {T : Type} (arrays : List (Option (List T)))
    (keyFn : T → String) (k : String) :
    (∃ x ∈ intersectArrays arrays keyFn, keyFn x = k) ↔
      (arrays ≠ [] ∧ ∀ a ∈ arrays, ∃ l, a = some l ∧ ∃ y ∈ l, keyFn y = k) := by
  constructor
  · rintro ⟨x, hx, rfl⟩
    exact intersectArrays_mem arrays keyFn x hx
  · rintro ⟨hne, hall⟩
    match arrays with
    | [] => exact absurd rfl hne
    | first? :: rest =>
      have hnone : ((first? :: rest).any Option.isNone) = false := by
        rw [List.any_eq_false]
        intro a ha
        rcases hall a ha with ⟨l, rfl, _⟩
        simp
      unfold intersectArrays
      simp only [hnone, Bool.false_eq_true, if_neg, Bool.not_eq_true]
      rcases hall first? (List.mem_cons_self _ _) with ⟨firstl, hfq, y0, hy0, hk0⟩
      have hkey : ∃ e ∈ (first?.getD []).foldl (insertEntry keyFn) [], e.1 = k := by
        rw [foldl_insertEntry_key_iff keyFn]
        exact Or.inr ⟨y0, by simp [hfq, hy0], hk0⟩
      rcases hkey with ⟨e, he, hek⟩
      have hsurv : e ∈ rest.foldl
          (fun acc arr? =>
            acc.filter (fun en => (arr?.getD []).any (fun p => keyFn p = en.1)))
          ((first?.getD []).foldl (insertEntry keyFn) []) := by
        rw [foldl_filter_mem keyFn rest _ e]
        refine ⟨he, fun arr? harr => ?_⟩
        rcases hall arr? (List.mem_cons_of_mem _ harr) with ⟨l, rfl, y, hy, hyk⟩
        exact List.any_eq_true.mpr ⟨y, by simpa using hy, by simp [hyk, hek]⟩
      refine ⟨e.2, List.mem_map.mpr ⟨e, hsurv, rfl⟩, ?_⟩
      rcases foldl_insertEntry_mem keyFn _ [] e he with h | ⟨p, _, rfl⟩
      · simp at h
      · simpa using hek

theorem intersectArrays_of_none_mem {T : Type} (arrays : List (Option (List T)))
    (keyFn : T → String) (h : none ∈ arrays) : intersectArrays arrays keyFn = [] := by
  match arrays with
  | [] => rfl
  | first? :: rest =>
    have : ((first? :: rest).any Option.isNone) = true :=
      List.any_eq_true.mpr ⟨none, h, by simp⟩
    unfold intersectArrays
    simp [this]

theorem unionFilters_excludes_eq {F T : Type} (raws : List (Option F))
    (normalize : F → NormalizedArrays T) (keyFn : T → String) :
    (unionFilters raws normalize keyFn).excludes =
      intersectArrays (raws.map (excsOfRaw normalize)) keyFn := by
  simp only [unionFilters]
  rw [unionFiltersGo_excludes]

theorem unionFilters_includes_some {F T : Type} (raws : List (Option F))
    (normalize : F → NormalizedArrays T) (keyFn : T → String) (L : List T)
    (h : (unionFilters raws normalize keyFn).includes = some L) :
    ∀ raw ∈ raws, ∃ f l, raw = some f ∧ (normalize f).include? = some l ∧
      ∀ x ∈ l, x ∈ L := by
  have h' : (unionFiltersGo normalize false raws).1 = false ∧
      (unionFiltersGo normalize false raws).2.1 = L := by
    simp only [unionFilters] at h
    cases hma : (unionFiltersGo normalize false raws).1 with
    | true => simp [hma] at h
    | false =>
      refine ⟨rfl, ?_⟩
      by_cases hl : (unionFiltersGo normalize false raws).2.1.length > 0
      · simpa [hma, hl] using h
      · simp [hma, hl] at h
  rcases h' with ⟨hma, hL⟩
  subst hL
  exact unionFiltersGo_includes_sub normalize raws hma

/-- `compilePresetFilter` on a defined spec, when it returns a predicate,
returns the three-dimension conjunction. -/
theorem compilePresetFilter_some {spec : FilterSpec} {m : Pattern → String → Bool}
    {g : PresetConversionContext → Bool}
    (h : compilePresetFilter m (some spec) = some g) (ctx : PresetConversionContext) :
    g ctx =
      (applyMatcher (compileGeneralHookFilter m spec.id) ctx.id &&
       applyMatcher (compileModuleTypeFilter spec.moduleType) ctx.moduleType &&
       applyMatcher (compileGeneralHookFilter m spec.code) ctx.code) := by
  simp only [compilePresetFilter] at h
  by_cases hcond : ((compileGeneralHookFilter m spec.id).isNone &&
      (compileModuleTypeFilter spec.moduleType).isNone &&
      (compileGeneralHookFilter m spec.code).isNone) = true
  · rw [if_pos hcond] at h
    exact absurd h (by simp)
  · rw [if_neg hcond] at h
    cases Option.some.inj h
    rfl

/-- The include/exclude lists `compileGeneralHookFilter` extracts agree with
`normalizeGeneralHookFilter`. -/
theorem compileGeneralHookFilter_eq_normalized (m : Pattern → String → Bool)
    (f : GeneralHookFilter) :
    compileGeneralHookFilter m (some f) =
      (match (normalizeGeneralHookFilter f).include?.map (compilePatterns m),
             (normalizeGeneralHookFilter f).exclude?.map (compilePatterns m) with
       | some im, some em => some (fun value => !em value && im value)
       | none, some em => some (fun value => !em value)
       | im, none => im) := by
  cases f <;> rfl

theorem applyMatcher_general_include_false {m : Pattern → String → Bool}
    {f : GeneralHookFilter} {l : List Pattern} {v : String}
    (hinc : (normalizeGeneralHookFilter f).include? = some l)
    (hno : compilePatterns m l v = false) :
    applyMatcher (compileGeneralHookFilter m (some f)) v = false := by
  rw [compileGeneralHookFilter_eq_normalized, hinc]
  cases hexc : (normalizeGeneralHookFilter f).exclude? <;>
    simp [applyMatcher, hno]

theorem applyMatcher_general_exclude_true {m : Pattern → String → Bool}
    {f : GeneralHookFilter} {l : List Pattern} {v : String}
    (hexc : (normalizeGeneralHookFilter f).exclude? = some l)
    (hyes : compilePatterns m l v = true) :
    applyMatcher (compileGeneralHookFilter m (some f)) v = false := by
  rw [compileGeneralHookFilter_eq_normalized, hexc]
  cases hinc : (normalizeGeneralHookFilter f).include? <;>
    simp [applyMatcher, hyes]

/-- The type list `compileModuleTypeFilter` extracts agrees with
`normalizeModuleTypeFilter`. -/
theorem compileModuleTypeFilter_eq_normalized (f : ModuleTypeFilter) :
    compileModuleTypeFilter (some f) =
      (if (normalizeModuleTypeFilter f).length = 0 then none
       else some (fun value => (normalizeModuleTypeFilter f).contains value)) := by
  cases f <;> rfl

theorem applyMatcher_moduleType_false {f : ModuleTypeFilter} {l : List String} {v : String}
    (hinc : (moduleTypeNormalize f).include? = some l) (hno : l.contains v = false) :
    applyMatcher (compileModuleTypeFilter (some f)) v = false := by
  unfold moduleTypeNormalize at hinc
  simp only at hinc
  by_cases hlen : (normalizeModuleTypeFilter f).length > 0
  · rw [if_pos hlen] at hinc
    have hl : normalizeModuleTypeFilter f = l := Option.some.inj hinc
    rw [compileModuleTypeFilter_eq_normalized, hl]
    rw [hl] at hlen
    have hne : ¬(l.length = 0) := by omega
    rw [if_neg hne]
    simpa [applyMatcher] using hno
  · rw [if_neg hlen] at hinc
    exact absurd hinc (by simp)

theorem idFilterAccepts_false_cases {m : Pattern → String → Bool} {f : IdFilterOut}
    {v : String} (h : idFilterAccepts m f v = false) :
    (∃ l, f.include? = some l ∧ compilePatterns m l v = false) ∨
    (∃ l, f.exclude? = some l ∧ compilePatterns m l v = true) := by
  obtain ⟨fi, fe⟩ := f
  cases fi with
  | none =>
    cases fe with
    | none => simp [idFilterAccepts] at h
    | some e =>
      simp only [idFilterAccepts] at h
      exact Or.inr ⟨e, rfl, by simpa using h⟩
  | some i =>
    cases fe with
    | none =>
      simp only [idFilterAccepts] at h
      exact Or.inl ⟨i, rfl, h⟩
    | some e =>
      simp only [idFilterAccepts] at h
      by_cases h1 : compilePatterns m e v = true
      · exact Or.inr ⟨e, rfl, h1⟩
      · have h1' : compilePatterns m e v = false := by
          cases hc : compilePatterns m e v
          · rfl
          · exact absurd hc h1
        rw [h1'] at h
        simp at h
        exact Or.inl ⟨i, rfl, h⟩

theorem idFilterAccepts_of_include_false {m : Pattern → String → Bool} {l : List Pattern}
    {e? : Option (List Pattern)} {v : String} (h : compilePatterns m l v = false) :
    idFilterAccepts m ⟨some l, e?⟩ v = false := by
  cases e? <;> simp [idFilterAccepts, h]

theorem idFilterAccepts_of_exclude_true {m : Pattern → String → Bool} {l : List Pattern}
    {i? : Option (List Pattern)} {v : String} (h : compilePatterns m l v = true) :
    idFilterAccepts m ⟨i?, some l⟩ v = false := by
  cases i? <;> simp [idFilterAccepts, h]

theorem calculateTransformFilter_base {α Cfg Env Plug : Type}
    (options : ResolvedPluginOptions α Cfg Env Plug)
    (h : pluginsNonempty options = true ∨ options.presets = none ∨
      (∃ ps, options.presets = some ps ∧ ps.length = 0) ∨
      (∃ ps, options.presets = some ps ∧
        ps.any (fun p => !isRolldownPresetWithFilter p) = true)) :
    calculateTransformFilter options = baseTransformFilter options := by
  rcases h with h | h | ⟨ps, hps, hlen⟩ | ⟨ps, hps, hany⟩
  · simp [calculateTransformFilter, h]
  · simp [calculateTransformFilter, h]
  · cases hplug : pluginsNonempty options <;>
      simp [calculateTransformFilter, hplug, hps, hlen]
  · cases hplug : pluginsNonempty options
    · by_cases hlen : ps.length = 0 <;>
        simp [calculateTransformFilter, hplug, hps, hlen, hany]
    · simp [calculateTransformFilter, hplug]

theorem calculateTransformFilter_presetBranch {α Cfg Env Plug : Type}
    (options : ResolvedPluginOptions α Cfg Env Plug)
    (presets : List (RolldownBabelPresetItem α Cfg Env))
    (hplug : pluginsNonempty options = false)
    (hps : options.presets = some presets)
    (hlen : ¬presets.length = 0)
    (hall : presets.any (fun p => !isRolldownPresetWithFilter p) = false) :
    calculateTransformFilter options =
      presetBranchFilter (extractStringOrRegExp (some options.includeOpt))
        (extractStringOrRegExp (some options.excludeOpt))
        (presetFilterSpecs presets) := by
  simp [calculateTransformFilter, hplug, hps, hlen, hall]

/-- Each member of a preset list that passes the all-rolldown-with-filter
check contributes its filter spec to `presetFilterSpecs`. -/
theorem presetFilterSpecs_mem {α Cfg Env : Type}
    {presets : List (RolldownBabelPresetItem α Cfg Env)}
    {a : α} {rd : RolldownData Cfg Env} {spec : FilterSpec}
    (hp : RolldownBabelPresetItem.rolldown a rd ∈ presets) (hf : rd.filter = some spec) :
    spec ∈ presetFilterSpecs presets := by
  unfold presetFilterSpecs
  exact List.mem_filterMap.mpr ⟨RolldownBabelPresetItem.rolldown a rd, hp, by simp [hf]⟩

/-- The keep-condition of the claim: a preset is kept iff it is plain, or has
no compiled filter, or its compiled predicate accepts the context. -/
def keepPreset {α Cfg Env : Type} (m : Pattern → String → Bool)
    (ctx : PresetConversionContext) (preset : RolldownBabelPresetItem α Cfg Env) : Bool :=
  match presetCompiled m preset with
  | none => true
  | some g => g ctx

/-- The babel payload a kept preset contributes to the output list. -/
def presetPayload {α Cfg Env : Type} : RolldownBabelPresetItem α Cfg Env → α
  | .plain v => v
  | .rolldown v _ => v

/-- Whether a preset item is a plain babel preset (not a rolldown preset). -/
def isPlainPreset {α Cfg Env : Type} : RolldownBabelPresetItem α Cfg Env → Bool
  | .plain _ => true
  | .rolldown _ _ => false

theorem filterMapGo_congr {T U : Type} (p : T → Nat → Option U) (g : T → Option U) :
    ∀ (l : List T) (k : Nat),
      (∀ (j : Nat) (h : j < l.length), p (l.get ⟨j, h⟩) (k + j) = g (l.get ⟨j, h⟩)) →
      filterMapGo p k l = l.filterMap g
  | [], _, _ => rfl
  | x :: xs, k, h => by
    have h0 : p x k = g x := by simpa using h 0 (by simp)
    have htail : ∀ (j : Nat) (hj : j < xs.length),
        p (xs.get ⟨j, hj⟩) ((k + 1) + j) = g (xs.get ⟨j, hj⟩) := by
      intro j hj
      have := h (j + 1) (by simpa using Nat.succ_lt_succ hj)
      simpa [Nat.add_comm, Nat.add_assoc, Nat.add_left_comm] using this
    have ih := filterMapGo_congr p g xs (k + 1) htail
    cases hgx : g x with
    | some u => simp [filterMapGo, h0, hgx, List.filterMap_cons, ih]
    | none => simp [filterMapGo, h0, hgx, List.filterMap_cons, ih]

theorem filterMap_eq_filter_map {T U : Type} (g : T → Option U) (keep : T → Bool)
    (pay : T → U) (hg : ∀ x, g x = if keep x then some (pay x) else none) :
    ∀ l : List T, l.filterMap g = (l.filter keep).map pay
  | [] => rfl
  | x :: xs => by
    cases hk : keep x <;>
      simp [List.filterMap_cons, hg x, hk, filterMap_eq_filter_map g keep pay hg xs,
        List.filter_cons]

theorem convertToBabelPresetItem_eq_keep {α Cfg Env : Type} (m : Pattern → String → Bool)
    (ctx : PresetConversionContext) (preset : RolldownBabelPresetItem α Cfg Env) :
    convertToBabelPresetItem ctx preset (presetCompiled m preset) =
      if keepPreset m ctx preset then some (presetPayload preset) else none := by
  cases preset with
  | plain v => rfl
  | rolldown v rd =>
    simp only [convertToBabelPresetItem, keepPreset, presetPayload, presetCompiled]
    cases hc : compilePresetFilter m rd.filter with
    | none => simp [hc]
    | some g => cases hg : g ctx <;> simp [hc, hg]

theorem selectPresets_eq_filter {α Cfg Env : Type} (m : Pattern → String → Bool)
    (ctx : PresetConversionContext)
    (presets : List (RolldownBabelPresetItem α Cfg Env)) :
    selectPresets m ctx presets = (presets.filter (keepPreset m ctx)).map presetPayload := by
  unfold selectPresets filterMap
  rw [filterMapGo_congr
      (fun preset i => convertToBabelPresetItem ctx preset
        ((compilePresetFilters m presets).getD i none))
      (fun preset => convertToBabelPresetItem ctx preset (presetCompiled m preset))]
  · exact filterMap_eq_filter_map _ _ _ (convertToBabelPresetItem_eq_keep m ctx) presets
  · intro j hj
    congr 1
    unfold compilePresetFilters
    rw [List.getD_eq_getElem?_getD, List.getElem?_map]
    simp [List.getElem?_eq_getElem hj]

/-! ### Claim theorems -/

/-- C6: for every context and preset list, the selected output is exactly the
input list filtered in place — a preset is kept iff it is plain, has no
compiled filter, or its compiled predicate accepts the context — with relative
order identical to the input (the output is the order-preserving
filter-then-project of the input, and may be empty). -/
theorem c6_selection_order_and_keep :
    ∀ {α Cfg Env : Type} (m : Pattern → String → Bool) (ctx : PresetConversionContext)
      (presets : List (RolldownBabelPresetItem α Cfg Env)),
      selectPresets m ctx presets = (presets.filter (keepPreset m ctx)).map presetPayload ∧
      ∀ preset : RolldownBabelPresetItem α Cfg Env,
        keepPreset m ctx preset = true ↔
          (isPlainPreset preset = true ∨ presetCompiled m preset = none ∨
            ∃ g, presetCompiled m preset = some g ∧ g ctx = true) := by
  intro α Cfg Env m ctx presets
  refine ⟨selectPresets_eq_filter m ctx presets, fun preset => ?_⟩
  unfold keepPreset
  cases hc : presetCompiled m preset with
  | none => simp [hc]
  | some g =>
    have hplain : isPlainPreset preset = false := by
      cases preset with
      | plain v => simp [presetCompiled] at hc
      | rolldown v rd => rfl
    simp [hc, hplain]

/-- C7: a dimension filter carrying both an include and an exclude list
compiles to a live predicate that accepts a value iff the value does not match
the exclude matcher and does match the include matcher; a value matching both
is rejected (exclude takes priority). -/
theorem c7_exclude_priority :
    ∀ (m : Pattern → String → Bool) (i e : MaybeArray Pattern) (v : String),
      (compileGeneralHookFilter m
        (some (GeneralHookFilter.obj (some i) (some e)))).isSome = true ∧
      applyMatcher
          (compileGeneralHookFilter m (some (GeneralHookFilter.obj (some i) (some e)))) v =
        (!compilePatterns m (arrayify e) v && compilePatterns m (arrayify i) v) ∧
      (applyMatcher
          (compileGeneralHookFilter m (some (GeneralHookFilter.obj (some i) (some e)))) v =
            true ↔
        (compilePatterns m (arrayify e) v = false ∧
          compilePatterns m (arrayify i) v = true)) ∧
      (compilePatterns m (arrayify e) v = true →
        applyMatcher
          (compileGeneralHookFilter m (some (GeneralHookFilter.obj (some i) (some e)))) v =
            false) := by
  intro m i e v
  refine ⟨rfl, rfl, ?_, fun h => ?_⟩
  · show (!compilePatterns m (arrayify e) v && compilePatterns m (arrayify i) v) = true ↔ _
    cases compilePatterns m (arrayify e) v <;> cases compilePatterns m (arrayify i) v <;>
      simp
  · show (!compilePatterns m (arrayify e) v && compilePatterns m (arrayify i) v) = false
    rw [h]
    simp

/-- C8: the predicate compiled from a pattern list is the disjunction of its
element patterns, and the empty list compiles to an always-false predicate. -/
theorem c8_pattern_disjunction :
    ∀ m : Pattern → String → Bool,
      (∀ (patterns : List Pattern) (value : String),
        compilePatterns m patterns value = true ↔ ∃ p ∈ patterns, m p value = true) ∧
      (∀ value : String, compilePatterns m [] value = false) := by
  intro m
  exact ⟨fun patterns value => compilePatterns_true_iff m patterns value, fun _ => rfl⟩

/-- C3: in the per-dimension union, one contributing rule with no filter for
the dimension (or a filter whose normalized form has no include list) makes
the composed include `undefined` (match-all), regardless of every other rule
and of positions. -/
theorem c3_union_monotonicity {F T : Type} (raws : List (Option F))
    (normalize : F → NormalizedArrays T) (keyFn : T → String)
    (h : ∃ raw ∈ raws, raw = none ∨ ∃ f, raw = some f ∧ (normalize f).include? = none) :
    (unionFilters raws normalize keyFn).includes = none := by
  have hma := unionFiltersGo_matchAll_of_unconstrained normalize false raws h
  simp [unionFilters, hma]

theorem c3_union_monotonicity_witness :
    (∃ raw ∈ [some (GeneralHookFilter.single (Pattern.str "a")),
        (none : Option GeneralHookFilter)],
      raw = none ∨ ∃ f, raw = some f ∧ (normalizeGeneralHookFilter f).include? = none) ∧
    (unionFilters [some (GeneralHookFilter.single (Pattern.str "a")), none]
        normalizeGeneralHookFilter patternKey).includes = none :=
  ⟨⟨none, by simp, Or.inl rfl⟩,
    c3_union_monotonicity _ _ _ ⟨none, by simp, Or.inl rfl⟩⟩

/-- C2: per dimension, the composed exclude set is the by-key intersection of
the contributing rules' exclude lists: a key survives iff every contributing
rule is present, carries an exclude list, and that list holds the key; for two
rules with excludes `{A,B}` and `{B,C}` the composed exclude is exactly `{B}`;
and one rule without an exclude list empties the composed exclude. -/
theorem c2_exclude_intersection :
    (∀ {F T : Type} (raws : List (Option F)) (normalize : F → NormalizedArrays T)
        (keyFn : T → String) (k : String),
      (∃ x ∈ (unionFilters raws normalize keyFn).excludes, keyFn x = k) ↔
        (raws ≠ [] ∧ ∀ raw ∈ raws, ∃ f l, raw = some f ∧
          (normalize f).exclude? = some l ∧ ∃ y ∈ l, keyFn y = k)) ∧
    ((unionFilters
        [some (GeneralHookFilter.obj none
            (some (MaybeArray.many [Pattern.str "A", Pattern.str "B"]))),
         some (GeneralHookFilter.obj none
            (some (MaybeArray.many [Pattern.str "B", Pattern.str "C"])))]
        normalizeGeneralHookFilter patternKey).excludes = [Pattern.str "B"]) ∧
    (∀ {F T : Type} (raws : List (Option F)) (normalize : F → NormalizedArrays T)
        (keyFn : T → String),
      (∃ raw ∈ raws, raw = none ∨ ∃ f, raw = some f ∧ (normalize f).exclude? = none) →
      (unionFilters raws normalize keyFn).excludes = []) := by
  refine ⟨?_, by decide, ?_⟩
  · intro F T raws normalize keyFn k
    rw [unionFilters_excludes_eq, intersectArrays_key_iff]
    constructor
    · rintro ⟨hne, hall⟩
      refine ⟨by simpa using hne, fun raw hraw => ?_⟩
      have := hall _ (List.mem_map.mpr ⟨raw, hraw, rfl⟩)
      rcases this with ⟨l, hl, hy⟩
      cases raw with
      | none => simp [excsOfRaw] at hl
      | some f => exact ⟨f, l, rfl, by simpa [excsOfRaw] using hl, hy⟩
    · rintro ⟨hne, hall⟩
      refine ⟨by simpa using hne, fun a ha => ?_⟩
      rcases List.mem_map.mp ha with ⟨raw, hraw, rfl⟩
      rcases hall raw hraw with ⟨f, l, rfl, hx, hy⟩
      exact ⟨l, by simpa [excsOfRaw] using hx, hy⟩
  · intro F T raws normalize keyFn h
    rw [unionFilters_excludes_eq]
    apply intersectArrays_of_none_mem
    rcases h with ⟨raw, hraw, hcase⟩
    rcases hcase with rfl | ⟨f, rfl, hex⟩
    · exact List.mem_map.mpr ⟨none, hraw, rfl⟩
    · exact List.mem_map.mpr ⟨some f, hraw, by simp [excsOfRaw, hex]⟩

/-- A concrete resolved option set whose single preset constrains `id` and
gives the `moduleType` dimension an empty include list. -/
def c10Options : ResolvedPluginOptions Unit Unit Unit Unit :=
  { includeOpt := DEFAULT_INCLUDE
    excludeOpt := DEFAULT_EXCLUDE
    plugins := none
    presets := some [RolldownBabelPresetItem.rolldown ()
      ⟨some ⟨some (GeneralHookFilter.single (Pattern.str "a")),
             some (ModuleTypeFilter.list []), none⟩, none, none⟩]
    overrides := none }

/-- C10: an empty `moduleType` include list compiles to match-all (the
compiled dimension predicate is absent, every module type passes, and the
pre-filter omits the `moduleType` dimension), whereas an empty `id`/`code`
pattern list compiles to a live predicate that rejects every value. -/
theorem c10_empty_list_asymmetry :
    (compileModuleTypeFilter (some (ModuleTypeFilter.list [])) = none ∧
     compileModuleTypeFilter (some (ModuleTypeFilter.obj (some []))) = none ∧
     compileModuleTypeFilter (some (ModuleTypeFilter.obj none)) = none) ∧
    (∀ v : String,
      applyMatcher (compileModuleTypeFilter (some (ModuleTypeFilter.list []))) v = true) ∧
    (calculateTransformFilter c10Options).moduleType = none ∧
    (∀ (m : Pattern → String → Bool) (v : String),
      (compileGeneralHookFilter m (some (GeneralHookFilter.list []))).isSome = true ∧
      applyMatcher (compileGeneralHookFilter m (some (GeneralHookFilter.list []))) v =
        false ∧
      (compileGeneralHookFilter m
        (some (GeneralHookFilter.obj (some (MaybeArray.many [])) none))).isSome = true ∧
      applyMatcher (compileGeneralHookFilter m
        (some (GeneralHookFilter.obj (some (MaybeArray.many [])) none))) v = false ∧
      compilePatterns m [] v = false) := by
  refine ⟨⟨rfl, rfl, rfl⟩, fun v => rfl, by decide, fun m v => ⟨rfl, rfl, rfl, rfl, rfl⟩⟩

/-- C5: at least one explicit plugin, or at least one preset that is plain or
a rolldown preset without a filter, makes `calculateTransformFilter` return
exactly the base filter: the user id include/exclude only, with the
`moduleType` and `code` dimensions omitted entirely. -/
theorem c5_opaque_rule_short_circuit {α Cfg Env Plug : Type}
    (options : ResolvedPluginOptions α Cfg Env Plug)
    (h : pluginsNonempty options = true ∨
      ∃ ps, options.presets = some ps ∧
        ∃ p ∈ ps, isRolldownPresetWithFilter p = false) :
    calculateTransformFilter options = baseTransformFilter options ∧
    (calculateTransformFilter options).id =
      some ⟨extractStringOrRegExp (some options.includeOpt),
            extractStringOrRegExp (some options.excludeOpt)⟩ ∧
    (calculateTransformFilter options).moduleType = none ∧
    (calculateTransformFilter options).code = none := by
  have hbase : calculateTransformFilter options = baseTransformFilter options := by
    rcases h with h | ⟨ps, hps, p, hp, hbad⟩
    · exact calculateTransformFilter_base options (Or.inl h)
    · refine calculateTransformFilter_base options (Or.inr (Or.inr (Or.inr ⟨ps, hps, ?_⟩)))
      exact List.any_eq_true.mpr ⟨p, hp, by simp [hbad]⟩
  exact ⟨hbase, by rw [hbase]; rfl, by rw [hbase]; rfl, by rw [hbase]; rfl⟩

/-- A concrete option set with one explicit plugin next to a filtered
rolldown preset. -/
def c5Options : ResolvedPluginOptions Unit Unit Unit Unit :=
  { includeOpt := DEFAULT_INCLUDE
    excludeOpt := DEFAULT_EXCLUDE
    plugins := some [()]
    presets := some [RolldownBabelPresetItem.rolldown ()
      ⟨some ⟨some (GeneralHookFilter.single (Pattern.str "t")), none, none⟩, none, none⟩]
    overrides := none }

theorem c5_opaque_rule_short_circuit_witness :
    (pluginsNonempty c5Options = true ∨
      ∃ ps, c5Options.presets = some ps ∧
        ∃ p ∈ ps, isRolldownPresetWithFilter p = false) ∧
    (calculateTransformFilter c5Options = baseTransformFilter c5Options ∧
     (calculateTransformFilter c5Options).id =
       some ⟨extractStringOrRegExp (some c5Options.includeOpt),
             extractStringOrRegExp (some c5Options.excludeOpt)⟩ ∧
     (calculateTransformFilter c5Options).moduleType = none ∧
     (calculateTransformFilter c5Options).code = none) :=
  ⟨Or.inl rfl, c5_opaque_rule_short_circuit c5Options (Or.inl rfl)⟩

/-- C4: when the user supplies an include, it replaces the union-derived
preset include entirely in the final `id` dimension (the result is the user
include, not the union), and the user exclude is concatenated with the
intersection-derived preset exclude, so a file matching either the user
exclude or the intersected preset exclude is rejected by the pre-filter. -/
theorem c4_user_path_settings {α Cfg Env Plug : Type}
    (options : ResolvedPluginOptions α Cfg Env Plug) (uI : List Pattern)
    (presets : List (RolldownBabelPresetItem α Cfg Env))
    (m : Pattern → String → Bool) (ctx : PresetConversionContext)
    (hInc : extractStringOrRegExp (some options.includeOpt) = some uI)
    (hPlug : pluginsNonempty options = false)
    (hPresets : options.presets = some presets)
    (hLen : ¬presets.length = 0)
    (hAll : presets.any (fun p => !isRolldownPresetWithFilter p) = false) :
    (calculateTransformFilter options).id =
      some ⟨some uI,
        concatArrays (extractStringOrRegExp (some options.excludeOpt))
          (if (idUnionOf (presetFilterSpecs presets)).excludes.length > 0
           then some (idUnionOf (presetFilterSpecs presets)).excludes else none)⟩ ∧
    ((((extractStringOrRegExp (some options.excludeOpt)).elim false
          (fun ue => compilePatterns m ue ctx.id)) = true ∨
        compilePatterns m (idUnionOf (presetFilterSpecs presets)).excludes ctx.id = true) →
      hookFilterAccepts m (calculateTransformFilter options) ctx = false) := by
  have hcf := calculateTransformFilter_presetBranch options presets hPlug hPresets hLen hAll
  set uE := extractStringOrRegExp (some options.excludeOpt) with huE
  set specs := presetFilterSpecs presets with hspecs
  have hid' : (presetBranchFilter (extractStringOrRegExp (some options.includeOpt)) uE
      specs).id = some ⟨some uI, finalIdExclude uE specs⟩ := by
    simp [presetBranchFilter, hInc, finalIdInclude]
  constructor
  · rw [hcf, hid']
    simp [finalIdExclude]
  · intro h
    have hmatch : ∃ l, finalIdExclude uE specs = some l ∧
        compilePatterns m l ctx.id = true := by
      unfold finalIdExclude
      by_cases hgt : (idUnionOf specs).excludes.length > 0
      · rw [if_pos hgt]
        cases huEv : uE with
        | none =>
          rcases h with h | h
          · rw [huEv] at h
            simp at h
          · exact ⟨(idUnionOf specs).excludes, rfl, h⟩
        | some ue =>
          refine ⟨ue ++ (idUnionOf specs).excludes, rfl, ?_⟩
          rw [compilePatterns_append]
          rcases h with h | h
          · rw [huEv] at h
            simp only [Option.elim] at h
            simp [h]
          · simp [h]
      · rw [if_neg hgt]
        have hexc : (idUnionOf specs).excludes = [] := by
          have hz : (idUnionOf specs).excludes.length = 0 := by omega
          exact List.length_eq_zero.mp hz
        cases huEv : uE with
        | none =>
          rcases h with h | h
          · rw [huEv] at h
            simp at h
          · rw [hexc] at h
            simp [compilePatterns_nil] at h
        | some ue =>
          rcases h with h | h
          · rw [huEv] at h
            simp only [Option.elim] at h
            exact ⟨ue, rfl, h⟩
          · rw [hexc] at h
            simp [compilePatterns_nil] at h
    rcases hmatch with ⟨l, hlEq, hlTrue⟩
    have hidacc : idFilterAccepts m ⟨some uI, finalIdExclude uE specs⟩ ctx.id = false := by
      rw [hlEq]
      exact idFilterAccepts_of_exclude_true hlTrue
    rw [hcf]
    simp only [hookFilterAccepts, hid']
    simp [hidacc]

/-- A concrete option set exercising C4: user include `x`, user exclude `e`,
one preset whose id filter includes `y` and excludes `z`. -/
def c4Options : ResolvedPluginOptions Unit Unit Unit Unit :=
  { includeOpt := MaybeArray.many [ConfigItem.pat (Pattern.str "x")]
    excludeOpt := MaybeArray.many [ConfigItem.pat (Pattern.str "e")]
    plugins := none
    presets := some [RolldownBabelPresetItem.rolldown ()
      ⟨some ⟨some (GeneralHookFilter.obj (some (MaybeArray.many [Pattern.str "y"]))
                (some (MaybeArray.many [Pattern.str "z"]))), none, none⟩, none, none⟩]
    overrides := none }

theorem c4_user_path_settings_witness :
    extractStringOrRegExp (some c4Options.includeOpt) = some [Pattern.str "x"] ∧
    pluginsNonempty c4Options = false ∧
    (¬([RolldownBabelPresetItem.rolldown (() : Unit)
        (⟨some ⟨some (GeneralHookFilter.obj (some (MaybeArray.many [Pattern.str "y"]))
            (some (MaybeArray.many [Pattern.str "z"]))), none, none⟩, none, none⟩ :
          RolldownData Unit Unit)] : List (RolldownBabelPresetItem Unit Unit Unit)).length
        = 0) ∧
    ((calculateTransformFilter c4Options).id =
      some ⟨some [Pattern.str "x"],
        concatArrays (extractStringOrRegExp (some c4Options.excludeOpt))
          (if (idUnionOf (presetFilterSpecs [RolldownBabelPresetItem.rolldown (() : Unit)
              (⟨some ⟨some (GeneralHookFilter.obj (some (MaybeArray.many [Pattern.str "y"]))
                  (some (MaybeArray.many [Pattern.str "z"]))), none, none⟩, none, none⟩ :
                RolldownData Unit Unit)])).excludes.length > 0
           then some (idUnionOf (presetFilterSpecs [RolldownBabelPresetItem.rolldown
              (() : Unit)
              (⟨some ⟨some (GeneralHookFilter.obj (some (MaybeArray.many [Pattern.str "y"]))
                  (some (MaybeArray.many [Pattern.str "z"]))), none, none⟩, none, none⟩ :
                RolldownData Unit Unit)])).excludes else none)⟩ ∧
      ((((extractStringOrRegExp (some c4Options.excludeOpt)).elim false
            (fun ue => compilePatterns litMatch ue "e")) = true ∨
          compilePatterns litMatch (idUnionOf (presetFilterSpecs
            [RolldownBabelPresetItem.rolldown (() : Unit)
              (⟨some ⟨some (GeneralHookFilter.obj (some (MaybeArray.many [Pattern.str "y"]))
                  (some (MaybeArray.many [Pattern.str "z"]))), none, none⟩, none, none⟩ :
                RolldownData Unit Unit)])).excludes "e" = true) →
        hookFilterAccepts litMatch (calculateTransformFilter c4Options)
          ⟨"e", "js", "c"⟩ = false)) :=
  ⟨by decide, rfl, by decide,
    c4_user_path_settings c4Options [Pattern.str "x"] _ litMatch ⟨"e", "js", "c"⟩
      (by decide) rfl rfl (by decide) (by decide)⟩

theorem filter_filter_bool {T : Type} (f g : T → Bool) :
    ∀ l : List T, (l.filter f).filter g = l.filter (fun x => f x && g x)
  | [] => rfl
  | x :: xs => by
    cases hf : f x <;> cases hg : g x <;>
      simp [List.filter_cons, hf, hg, filter_filter_bool f g xs]

/-- C9: each lifecycle gate keeps every preset lacking its gate function and
drops exactly those whose gate function returns false, applies the same
reduction to every override block's preset list, and the environment gate runs
on the already phase-filtered list: the composition filters by the
conjunction of the two gates, and a phase-dropped preset is absent from the
list the environment gate receives. -/
theorem c9_lifecycle_gates :
    ∀ {α Cfg Env Plug : Type} (options : PluginOptions α Cfg Env Plug) (config : Cfg)
      (environment : Env),
      ((filterPresetsWithConfigResolved options config).presets =
        options.presets.map (fun ps => ps.filter (phaseKeep config))) ∧
      ((filterPresetsWithConfigResolved options config).overrides =
        options.overrides.map (List.map (fun o =>
          ⟨o.presets.map (fun ps => ps.filter (phaseKeep config))⟩))) ∧
      ((filterPresetsWithEnvironment options environment).presets =
        options.presets.map (fun ps => ps.filter (envKeep environment))) ∧
      ((filterPresetsWithEnvironment options environment).overrides =
        options.overrides.map (List.map (fun o =>
          ⟨o.presets.map (fun ps => ps.filter (envKeep environment))⟩))) ∧
      (∀ p : RolldownBabelPresetItem α Cfg Env,
        phaseKeep config p = false ↔
          ∃ a rd, p = RolldownBabelPresetItem.rolldown a rd ∧
            ∃ hook, rd.configResolvedHook = some hook ∧ hook config = false) ∧
      (∀ p : RolldownBabelPresetItem α Cfg Env,
        envKeep environment p = false ↔
          ∃ a rd, p = RolldownBabelPresetItem.rolldown a rd ∧
            ∃ hook, rd.applyToEnvironmentHook = some hook ∧ hook environment = false) ∧
      ((filterPresetsWithEnvironment (filterPresetsWithConfigResolved options config)
          environment).presets =
        options.presets.map (fun ps =>
          ps.filter (fun p => phaseKeep config p && envKeep environment p))) ∧
      (∀ (ps : List (RolldownBabelPresetItem α Cfg Env))
          (p : RolldownBabelPresetItem α Cfg Env),
        phaseKeep config p = false → p ∉ filterPresetArray ps config) := by
  intro α Cfg Env Plug options config environment
  have hoverP : ∀ (o : InnerOptions α Cfg Env),
      (match o.presets with
        | some ps => ({ o with presets := some (filterPresetArray ps config) } :
            InnerOptions α Cfg Env)
        | none => o) =
      ⟨o.presets.map (fun ps => ps.filter (phaseKeep config))⟩ := by
    intro o
    obtain ⟨po⟩ := o
    cases po <;> rfl
  have hoverE : ∀ (o : InnerOptions α Cfg Env),
      (match o.presets with
        | some ps => ({ o with
            presets := some (filterPresetArrayWithEnvironment ps environment) } :
            InnerOptions α Cfg Env)
        | none => o) =
      ⟨o.presets.map (fun ps => ps.filter (envKeep environment))⟩ := by
    intro o
    obtain ⟨po⟩ := o
    cases po <;> rfl
  refine ⟨rfl, ?_, rfl, ?_, ?_, ?_, ?_, ?_⟩
  · show options.overrides.map (List.map _) = _
    cases options.overrides with
    | none => rfl
    | some l =>
      simp only [Option.map_some']
      exact congrArg some (List.map_congr_left (fun o _ => hoverP o))
  · show options.overrides.map (List.map _) = _
    cases options.overrides with
    | none => rfl
    | some l =>
      simp only [Option.map_some']
      exact congrArg some (List.map_congr_left (fun o _ => hoverE o))
  · intro p
    cases p with
    | plain v => simp [phaseKeep]
    | rolldown v rd =>
      cases hhook : rd.configResolvedHook with
      | none => simp [phaseKeep, hhook]
      | some hook =>
        simp only [phaseKeep, hhook]
        constructor
        · intro hfalse
          exact ⟨v, rd, rfl, hook, hhook, hfalse⟩
        · rintro ⟨a, rd', heq, hook', hh, hf⟩
          cases heq
          rw [hhook] at hh
          cases Option.some.inj hh
          exact hf
  · intro p
    cases p with
    | plain v => simp [envKeep]
    | rolldown v rd =>
      cases hhook : rd.applyToEnvironmentHook with
      | none => simp [envKeep, hhook]
      | some hook =>
        simp only [envKeep, hhook]
        constructor
        · intro hfalse
          exact ⟨v, rd, rfl, hook, hhook, hfalse⟩
        · rintro ⟨a, rd', heq, hook', hh, hf⟩
          cases heq
          rw [hhook] at hh
          cases Option.some.inj hh
          exact hf
  · show (options.presets.map (filterPresetArray · config)).map
        (filterPresetArrayWithEnvironment · environment) = _
    cases options.presets with
    | none => rfl
    | some ps =>
      simp only [Option.map_some']
      exact congrArg some (filter_filter_bool (phaseKeep config) (envKeep environment) ps)
  · intro ps p hfalse hmem
    have := (List.mem_filter.mp hmem).2
    rw [hfalse] at this
    exact absurd this (by simp)

theorem bool_and3_false {a b c : Bool} (h : (a && b && c) = false) :
    a = false ∨ b = false ∨ c = false := by
  cases a <;> cases b <;> cases c <;> simp_all

theorem hookFilterAccepts_false_cases {m : Pattern → String → Bool} {hf : HookFilterOut}
    {ctx : PresetConversionContext} (h : hookFilterAccepts m hf ctx = false) :
    (∃ f, hf.id = some f ∧ idFilterAccepts m f ctx.id = false) ∨
    (∃ types, hf.moduleType = some types ∧ types.contains ctx.moduleType = false) ∨
    (∃ cf, hf.code = some cf ∧ codeFilterAccepts m cf ctx.code = false) := by
  unfold hookFilterAccepts at h
  rcases bool_and3_false h with h1 | h2 | h3
  · left
    cases hi : hf.id with
    | none => rw [hi] at h1; simp at h1
    | some f => rw [hi] at h1; exact ⟨f, rfl, h1⟩
  · right; left
    cases hm : hf.moduleType with
    | none => rw [hm] at h2; simp at h2
    | some types => rw [hm] at h2; exact ⟨types, rfl, h2⟩
  · right; right
    cases hc : hf.code with
    | none => rw [hc] at h3; simp at h3
    | some cf => rw [hc] at h3; exact ⟨cf, rfl, h3⟩

theorem hookFilterAccepts_base {α Cfg Env Plug : Type} (m : Pattern → String → Bool)
    (options : ResolvedPluginOptions α Cfg Env Plug) (ctx : PresetConversionContext) :
    hookFilterAccepts m (baseTransformFilter options) ctx =
      idFilterAccepts m
        ⟨extractStringOrRegExp (some options.includeOpt),
         extractStringOrRegExp (some options.excludeOpt)⟩ ctx.id := by
  simp [hookFilterAccepts, baseTransformFilter]

/-- In a list where every preset is a rolldown preset with a filter, each
preset with a compiled predicate decomposes into its filter spec. -/
theorem preset_decompose {α Cfg Env : Type} {m : Pattern → String → Bool}
    {presets : List (RolldownBabelPresetItem α Cfg Env)}
    (hAll : presets.any (fun p => !isRolldownPresetWithFilter p) = false)
    {p : RolldownBabelPresetItem α Cfg Env} (hp : p ∈ presets)
    {g : PresetConversionContext → Bool} (hg : presetCompiled m p = some g) :
    ∃ spec, spec ∈ presetFilterSpecs presets ∧
      compilePresetFilter m (some spec) = some g := by
  have hpk : isRolldownPresetWithFilter p = true := by
    have := List.any_eq_false.mp hAll p hp
    simpa using this
  cases p with
  | plain v => simp [isRolldownPresetWithFilter] at hpk
  | rolldown v rd =>
    simp only [isRolldownPresetWithFilter] at hpk
    rcases Option.isSome_iff_exists.mp hpk with ⟨spec, hspec⟩
    refine ⟨spec, presetFilterSpecs_mem hp hspec, ?_⟩
    simpa [presetCompiled, hspec] using hg

theorem compilePatterns_false_of_sub {m : Pattern → String → Bool} {l L : List Pattern}
    {v : String} (hsub : ∀ x ∈ l, x ∈ L) (hL : compilePatterns m L v = false) :
    compilePatterns m l v = false := by
  cases hc : compilePatterns m l v with
  | false => rfl
  | true =>
    rcases (compilePatterns_true_iff m l v).mp hc with ⟨x, hx, hmx⟩
    rw [(compilePatterns_true_iff m L v).mpr ⟨x, hsub x hx, hmx⟩] at hL
    exact absurd hL (by simp)

/-- C1 (amended): if the compiled pre-filter rejects a file context, then the
base filter (the user id include/exclude alone) rejects it, or no configured
preset's compiled per-file predicate matches it.  The oracle is assumed to
give equal answers to patterns with equal literal keys, which holds of the
real pattern compiler because `patternKey` embeds the literal text. -/
theorem c1_conservative_prefilter_amended {α Cfg Env Plug : Type}
    (m : Pattern → String → Bool)
    (hkey : ∀ p q, patternKey p = patternKey q → ∀ v, m p v = m q v)
    (options : ResolvedPluginOptions α Cfg Env Plug) (ctx : PresetConversionContext)
    (hrej : hookFilterAccepts m (calculateTransformFilter options) ctx = false) :
    hookFilterAccepts m (baseTransformFilter options) ctx = false ∨
      ∀ p ∈ options.presets.getD [], ∀ g, presetCompiled m p = some g →
        g ctx = false := by
  by_cases hplug : pluginsNonempty options = true
  · rw [calculateTransformFilter_base options (Or.inl hplug)] at hrej
    exact Or.inl hrej
  have hplug' : pluginsNonempty options = false := by
    cases hy : pluginsNonempty options
    · rfl
    · exact absurd hy hplug
  cases hps : options.presets with
  | none =>
    rw [calculateTransformFilter_base options (Or.inr (Or.inl hps))] at hrej
    exact Or.inl hrej
  | some presets =>
    by_cases hlen : presets.length = 0
    · rw [calculateTransformFilter_base options
        (Or.inr (Or.inr (Or.inl ⟨presets, hps, hlen⟩)))] at hrej
      exact Or.inl hrej
    cases hany : presets.any (fun p => !isRolldownPresetWithFilter p) with
    | true =>
      rw [calculateTransformFilter_base options
        (Or.inr (Or.inr (Or.inr ⟨presets, hps, hany⟩)))] at hrej
      exact Or.inl hrej
    | false =>
      rw [calculateTransformFilter_presetBranch options presets hplug' hps hlen hany]
        at hrej
      set uI := extractStringOrRegExp (some options.includeOpt) with huI
      set uE := extractStringOrRegExp (some options.excludeOpt) with huE
      set specs := presetFilterSpecs presets with hspecs
      -- the three ways one preset's predicate conjunct can fail
      have failDim : ∀ (pick : FilterSpec → PresetConversionContext → Bool),
          (∀ spec g ctx2, compilePresetFilter m (some spec) = some g →
            pick spec ctx2 = false → g ctx2 = false) →
          (∀ spec ∈ specs, pick spec ctx = false) →
          ∀ p ∈ presets, ∀ g, presetCompiled m p = some g →
            g ctx = false := by
        intro pick hpick hall p hp g hg
        rcases preset_decompose hany hp hg with ⟨spec, hmem, hcf⟩
        exact hpick spec g ctx hcf (hall spec hmem)
      have failId : (∀ spec ∈ specs,
          applyMatcher (compileGeneralHookFilter m spec.id) ctx.id = false) →
          ∀ p ∈ presets, ∀ g, presetCompiled m p = some g →
            g ctx = false := by
        refine failDim (fun spec ctx2 =>
          applyMatcher (compileGeneralHookFilter m spec.id) ctx2.id) ?_
        intro spec g ctx2 hcf hfalse
        have hfalse' : applyMatcher (compileGeneralHookFilter m spec.id) ctx2.id = false :=
          hfalse
        rw [compilePresetFilter_some hcf ctx2, hfalse']
        simp
      have failMT : (∀ spec ∈ specs,
          applyMatcher (compileModuleTypeFilter spec.moduleType) ctx.moduleType = false) →
          ∀ p ∈ presets, ∀ g, presetCompiled m p = some g →
            g ctx = false := by
        refine failDim (fun spec ctx2 =>
          applyMatcher (compileModuleTypeFilter spec.moduleType) ctx2.moduleType) ?_
        intro spec g ctx2 hcf hfalse
        have hfalse' :
            applyMatcher (compileModuleTypeFilter spec.moduleType) ctx2.moduleType = false :=
          hfalse
        rw [compilePresetFilter_some hcf ctx2, hfalse']
        simp
      have failCode : (∀ spec ∈ specs,
          applyMatcher (compileGeneralHookFilter m spec.code) ctx.code = false) →
          ∀ p ∈ presets, ∀ g, presetCompiled m p = some g →
            g ctx = false := by
        refine failDim (fun spec ctx2 =>
          applyMatcher (compileGeneralHookFilter m spec.code) ctx2.code) ?_
        intro spec g ctx2 hcf hfalse
        have hfalse' : applyMatcher (compileGeneralHookFilter m spec.code) ctx2.code = false :=
          hfalse
        rw [compilePresetFilter_some hcf ctx2, hfalse']
        simp
      -- a match against the intersected exclude union defeats every spec's
      -- corresponding dimension
      have excludeCase : ∀ (proj : FilterSpec → Option GeneralHookFilter) (v : String)
          (x : Pattern),
          x ∈ (unionFilters (specs.map (fun s => proj s)) normalizeGeneralHookFilter
            patternKey).excludes →
          m x v = true →
          ∀ spec ∈ specs,
            applyMatcher (compileGeneralHookFilter m (proj spec)) v = false := by
        intro proj v x hx hmx spec hmem
        rw [unionFilters_excludes_eq] at hx
        have hfacts := intersectArrays_mem _ patternKey x hx
        cases hproj : proj spec with
        | none =>
          have hmem2 : (none : Option (List Pattern)) ∈
              (specs.map (fun s => proj s)).map (excsOfRaw normalizeGeneralHookFilter) := by
            refine List.mem_map.mpr ⟨proj spec, List.mem_map_of_mem _ hmem, ?_⟩
            rw [hproj]
            rfl
          rcases hfacts.2 none hmem2 with ⟨la, haEq, _⟩
          simp at haEq
        | some f =>
          have hmem2 : ((normalizeGeneralHookFilter f).exclude?) ∈
              (specs.map (fun s => proj s)).map (excsOfRaw normalizeGeneralHookFilter) := by
            refine List.mem_map.mpr ⟨proj spec, List.mem_map_of_mem _ hmem, ?_⟩
            rw [hproj]
            rfl
          rcases hfacts.2 _ hmem2 with ⟨la, haEq, y, hy, hky⟩
          have hexc : (normalizeGeneralHookFilter f).exclude? = some la := haEq
          have hyv : m y v = true := by rw [hkey y x hky v]; exact hmx
          exact applyMatcher_general_exclude_true hexc
            ((compilePatterns_true_iff m la v).mpr ⟨y, hy, hyv⟩)
      -- an include-union miss defeats every spec's corresponding dimension
      have includeCase : ∀ (proj : FilterSpec → Option GeneralHookFilter) (v : String)
          (L : List Pattern),
          (unionFilters (specs.map (fun s => proj s)) normalizeGeneralHookFilter
            patternKey).includes = some L →
          compilePatterns m L v = false →
          ∀ spec ∈ specs,
            applyMatcher (compileGeneralHookFilter m (proj spec)) v = false := by
        intro proj v L hL hfail spec hmem
        rcases unionFilters_includes_some _ _ _ _ hL (proj spec)
            (List.mem_map_of_mem _ hmem) with ⟨f, l, hproj, hinc, hsub⟩
        rw [hproj]
        exact applyMatcher_general_include_false hinc
          (compilePatterns_false_of_sub hsub hfail)
      rcases hookFilterAccepts_false_cases hrej with
        ⟨f, hfEq, hfRej⟩ | ⟨types, htEq, htRej⟩ | ⟨cf, hcEq, hcRej⟩
      · -- id dimension rejected
        have hid_eq : (presetBranchFilter uI uE specs).id =
            (if (finalIdInclude uI specs).isSome || (finalIdExclude uE specs).isSome then
              some ⟨finalIdInclude uI specs, finalIdExclude uE specs⟩
            else none) := rfl
        rw [hid_eq] at hfEq
        have hfEq' : f = ⟨finalIdInclude uI specs, finalIdExclude uE specs⟩ := by
          by_cases hcond : ((finalIdInclude uI specs).isSome ||
              (finalIdExclude uE specs).isSome) = true
          · rw [if_pos hcond] at hfEq
            exact (Option.some.inj hfEq).symm
          · rw [if_neg hcond] at hfEq
            exact absurd hfEq (by simp)
        subst hfEq'
        rcases idFilterAccepts_false_cases hfRej with ⟨l, hIncEq, hIncFail⟩ |
          ⟨l, hExcEq, hExcHit⟩
        · -- include present and missed
          cases huIv : uI with
          | some ul =>
            left
            rw [hookFilterAccepts_base, ← huI, ← huE, huIv]
            have hl : l = ul := by
              rw [huIv] at hIncEq
              simpa [finalIdInclude] using hIncEq.symm
            subst hl
            exact idFilterAccepts_of_include_false hIncFail
          | none =>
            right
            have hLU : (idUnionOf specs).includes = some l := by
              rw [huIv] at hIncEq
              simpa [finalIdInclude] using hIncEq
            exact failId (includeCase (fun s => s.id) ctx.id l hLU hIncFail)
        · -- exclude present and hit
          have hExcEq' : finalIdExclude uE specs = some l := hExcEq
          unfold finalIdExclude at hExcEq'
          by_cases hgt : (idUnionOf specs).excludes.length > 0
          · rw [if_pos hgt] at hExcEq'
            cases huEv : uE with
            | none =>
              rw [huEv] at hExcEq'
              have hl : l = (idUnionOf specs).excludes := by
                simpa [concatArrays] using hExcEq'.symm
              subst hl
              rcases (compilePatterns_true_iff m _ _).mp hExcHit with ⟨x, hx, hmx⟩
              exact Or.inr (failId (excludeCase (fun s => s.id) ctx.id x hx hmx))
            | some ue =>
              rw [huEv] at hExcEq'
              have hl : l = ue ++ (idUnionOf specs).excludes := by
                simpa [concatArrays] using hExcEq'.symm
              subst hl
              rw [compilePatterns_append] at hExcHit
              rcases Bool.or_eq_true_iff.mp hExcHit with hue | hux
              · left
                rw [hookFilterAccepts_base, ← huI, ← huE, huEv]
                exact idFilterAccepts_of_exclude_true hue
              · rcases (compilePatterns_true_iff m _ _).mp hux with ⟨x, hx, hmx⟩
                exact Or.inr (failId (excludeCase (fun s => s.id) ctx.id x hx hmx))
          · rw [if_neg hgt] at hExcEq'
            cases huEv : uE with
            | none =>
              rw [huEv] at hExcEq'
              simp [concatArrays] at hExcEq'
            | some ue =>
              rw [huEv] at hExcEq'
              have hl : l = ue := by simpa [concatArrays] using hExcEq'.symm
              subst hl
              left
              rw [hookFilterAccepts_base, ← huI, ← huE, huEv]
              exact idFilterAccepts_of_exclude_true hExcHit
      · -- moduleType dimension rejected
        right
        have hmt_eq : (presetBranchFilter uI uE specs).moduleType =
            (moduleTypeUnionOf specs).includes := rfl
        have hMT : (moduleTypeUnionOf specs).includes = some types := by
          rw [hmt_eq] at htEq
          exact htEq
        refine failMT ?_
        intro spec hmem
        rcases unionFilters_includes_some _ _ _ _ hMT spec.moduleType
            (List.mem_map_of_mem _ hmem) with ⟨f, l, hproj, hinc, hsub⟩
        rw [hproj]
        have hnot : l.contains ctx.moduleType = false := by
          cases hc : l.contains ctx.moduleType with
          | false => rfl
          | true =>
            have hmeml : ctx.moduleType ∈ l := by
              simpa using hc
            have hmemt : ctx.moduleType ∈ types := hsub _ hmeml
            have hct : types.contains ctx.moduleType = true := by
              simpa using hmemt
            rw [hct] at htRej
            exact absurd htRej (by simp)
        exact applyMatcher_moduleType_false hinc hnot
      · -- code dimension rejected
        right
        have hcode_eq : (presetBranchFilter uI uE specs).code =
            (match (codeUnionOf specs).includes with
            | none => none
            | some incs =>
              if (codeUnionOf specs).excludes.length > 0 then
                some (CodeFilterOut.withExclude incs (codeUnionOf specs).excludes)
              else some (CodeFilterOut.plain incs)) := rfl
        rw [hcode_eq] at hcEq
        cases hIncs : (codeUnionOf specs).includes with
        | none => simp [hIncs] at hcEq
        | some incs =>
          simp only [hIncs] at hcEq
          by_cases hgt : (codeUnionOf specs).excludes.length > 0
          · rw [if_pos hgt] at hcEq
            have hcf : cf = CodeFilterOut.withExclude incs (codeUnionOf specs).excludes :=
              (Option.some.inj hcEq).symm
            subst hcf
            have hcRej2 : idFilterAccepts m
                ⟨some incs, some ((codeUnionOf specs).excludes)⟩ ctx.code = false := hcRej
            have hsplit : (∃ l2, (some incs : Option (List Pattern)) = some l2 ∧
                compilePatterns m l2 ctx.code = false) ∨
                (∃ l2, (some ((codeUnionOf specs).excludes) : Option (List Pattern)) =
                  some l2 ∧ compilePatterns m l2 ctx.code = true) := by
              have := idFilterAccepts_false_cases hcRej2
              simpa using this
            rcases hsplit with ⟨l2, hl2, hfail⟩ | ⟨l2, hl2, hhit⟩
            · cases Option.some.inj hl2
              exact failCode (includeCase (fun s => s.code) ctx.code incs hIncs hfail)
            · cases Option.some.inj hl2
              rcases (compilePatterns_true_iff m _ _).mp hhit with ⟨x, hx, hmx⟩
              exact failCode (excludeCase (fun s => s.code) ctx.code x hx hmx)
          · rw [if_neg hgt] at hcEq
            have hcf : cf = CodeFilterOut.plain incs := (Option.some.inj hcEq).symm
            subst hcf
            have hfail : compilePatterns m incs ctx.code = false := hcRej
            exact failCode (includeCase (fun s => s.code) ctx.code incs hIncs hfail)

/-- The sole preset of the C1 counterexample: its filter selects id `b`. -/
def c1Preset : RolldownBabelPresetItem Unit Unit Unit :=
  RolldownBabelPresetItem.rolldown ()
    ⟨some ⟨some (GeneralHookFilter.single (Pattern.str "b")), none, none⟩, none, none⟩

/-- The option set of the C1 counterexample: the user include is the literal
pattern `a`, the user exclude extracts to nothing, and the one preset filters
on id `b`. -/
def c1Options : ResolvedPluginOptions Unit Unit Unit Unit :=
  { includeOpt := MaybeArray.many [ConfigItem.pat (Pattern.str "a")]
    excludeOpt := MaybeArray.many []
    plugins := none
    presets := some [c1Preset]
    overrides := none }

/-- C1 counterexample: at this concrete option set and file context the
compiled pre-filter rejects the file (the user include `a` replaces the
preset-derived include), yet the sole configured preset's compiled per-file
predicate matches it — so pre-filter rejection does not imply that no preset
predicate matches. -/
theorem c1_conservative_prefilter_counterexample :
    c1Options.presets = some [c1Preset] ∧
    hookFilterAccepts litMatch (calculateTransformFilter c1Options)
      ⟨"b", "js", "c"⟩ = false ∧
    (presetCompiled litMatch c1Preset).elim false
      (fun g => g ⟨"b", "js", "c"⟩) = true :=
  ⟨rfl, by decide, by decide⟩

theorem c1_conservative_prefilter_amended_witness :
    (∀ p q, patternKey p = patternKey q → ∀ v, noMatch p v = noMatch q v) ∧
    hookFilterAccepts noMatch (calculateTransformFilter c1Options)
      ⟨"b", "js", "c"⟩ = false ∧
    (hookFilterAccepts noMatch (baseTransformFilter c1Options) ⟨"b", "js", "c"⟩ = false ∨
      ∀ p ∈ c1Options.presets.getD [], ∀ g, presetCompiled noMatch p = some g →
        g ⟨"b", "js", "c"⟩ = false) :=
  ⟨fun _ _ _ _ => rfl, by decide,
    c1_conservative_prefilter_amended noMatch (fun _ _ _ _ => rfl) c1Options
      ⟨"b", "js", "c"⟩ (by decide)⟩

end RB
